import Mathlib

/-!
Verification development for the sentient_core inference worker
(src/llm_engine.rs, with data types from src/config.rs and src/chatlog.rs).

Modelling conventions, documented once here:

* Rust UTF-8 strings are modelled as lists of characters (abbrev Str).
  Rust indexes and measures strings in bytes; for the ASCII data handled by
  the engine the two notions coincide, and all other claims are insensitive
  to the difference.
* f32 sampler values (top_p, temperature, mirostat_eta, ...) enter the
  engine only through their rendered decimal form (format strings and JSON
  serialization); we model each such field by the string it renders to.
* The text-to-token ratio is an f32 used in one multiplication followed by
  a truncating cast; it is modelled in exact rational arithmetic.
* The opaque candle Tensor embedding values are modelled by Nat; no claim
  inspects an embedding value, only the embeddings list structure.
* The two LLM backends are external processes.  They are modelled by
  oracles: the remote HTTP POST by a function from the request body to
  either a transport error or a status code plus a body-parse outcome, the
  local token generation by a function from sampler string and prompt to
  the collected output text, and the hot-swap model load by a function
  from the model path to a success flag (the source panics on a failed
  load).  The BERT embedding model is likewise a function field of
  VectorEmbeddingEngine; the cosine-similarity ranking over the stored
  embeddings (floating point) is the abstract rankMatches field, while the
  two panic paths of get_sentence_similarity_for_last (the index underflow
  or out-of-range unwrap for a log with at most extra_offset items, and
  the unwrap on a failed query embedding) are modelled explicitly.
* A Rust panic (unwrap, expect, panic) aborts the worker thread.  Fallible
  functions whose source can panic return Except Str; the error carries the
  panic message.  Integer underflow in the prompt-limit subtraction is
  modelled by truncating Nat subtraction; theorems that depend on the value
  carry hypotheses that rule the underflow out.
* The worker start-up phase (initial model load) precedes every message;
  runWorker models the worker from the point the load has succeeded, which
  is the point the first message can be emitted.
-/

abbrev Str := List Char

def chars (s : String) : Str := s.data

/-- Rust str::find for a pattern string: byte index of the first occurrence
of pat inside s, None when absent.  An empty pattern matches at 0. -/
def findSub (pat : Str) : Str → Option Nat
  | [] => if pat = [] then some 0 else none
  | c :: rest =>
    if pat <+: (c :: rest) then some 0
    else (findSub pat rest).map (· + 1)

/-- Rust str::contains for a pattern string. -/
def containsSub (pat s : Str) : Bool := (findSub pat s).isSome

/-- Worker for replaceAll, structurally recursive on a fuel bound that
dominates the string length (each step consumes at least one character, so
the zero-fuel case is never reached from the wrapper). -/
def replaceAllGo (pat repl : Str) : Nat → Str → Str
  | _, [] => []
  | 0, s => s
  | fuel + 1, c :: rest =>
    if pat ≠ [] ∧ pat <+: (c :: rest) then
      repl ++ replaceAllGo pat repl fuel (rest.drop (pat.length - 1))
    else
      c :: replaceAllGo pat repl fuel rest

/-- Rust str::replace: replace every non-overlapping occurrence of pat,
scanning left to right.  The engine never calls replace with an empty
pattern, for which this model is the identity. -/
def replaceAll (pat repl s : Str) : Str := replaceAllGo pat repl s.length s

/-- Rust slice join with a one-character separator (the engine only joins
with a newline). -/
def joinSep (sep : Char) : List Str → Str
  | [] => []
  | [x] => x
  | x :: y :: rest => x ++ sep :: joinSep sep (y :: rest)

/-- Rust str::trim_end (the engine only ever trims ASCII whitespace). -/
def trimEndStr (s : Str) : Str := (s.reverse.dropWhile Char.isWhitespace).reverse

def asciiLower (c : Char) : Char :=
  if 'A' ≤ c ∧ c ≤ 'Z' then Char.ofNat (c.toNat + 32) else c

/-- Rust str::eq_ignore_ascii_case. -/
def eqIgnoreAsciiCase (a b : Str) : Bool := a.map asciiLower == b.map asciiLower

/-- Rust str::lines: split on a newline, dropping one trailing empty line. -/
def linesOf (s : Str) : List Str :=
  let parts := List.splitOn '\n' s
  if parts.getLast? = some [] then parts.dropLast else parts

def natStr (n : Nat) : Str := (Nat.repr n).data

/- ===================== data model (config.rs, chatlog.rs) ============== -/

/-- CharacterFileYaml, restricted to the fields the inference engine reads
(name and description; colors, greeting and starting context are consumed
by the UI layer only). -/
structure CharacterFileYaml where
  name : Str
  description : Str
deriving DecidableEq

/-- ChatLogItem: one conversation turn.  embeddings holds opaque tensors,
modelled by Nat. -/
structure ChatLogItem where
  entity : Str
  lines : List Str
  embeddings : List Nat
deriving DecidableEq

/-- ChatLogItem::get_name_and_items_as_string. -/
def getNameAndItemsAsString (item : ChatLogItem) : Str :=
  item.entity ++ chars ": " ++ joinSep '\n' item.lines

/-- ChatLog, restricted to the fields the inference engine reads.  The
memory map, participant file paths and persistence fields are consumed by
the UI layer only. -/
structure ChatLog where
  user_description : Option Str
  current_context : Str
  items : List ChatLogItem
deriving DecidableEq

/-- ConfiguredLlm, restricted to the fields the inference engine reads
(gpu_layer_count, gqa and seed configure the external model loader). -/
structure ConfiguredLlm where
  name : Str
  path : Option Str
  remote_server : Option Str
  remote_timeout_s : Option Nat
  context_size : Nat
  similar_sentence_count : Option Nat
  prompt_instruct_template : Str
deriving DecidableEq

/-- ConfiguredParameters (a sampling profile).  f32 fields are modelled by
their rendered decimal strings, usize fields by Nat. -/
structure ConfiguredParameters where
  name : Str
  top_k : Option Nat
  top_p : Option Str
  min_p : Option Str
  repeat_penalty : Option Str
  repeat_penalty_range : Option Nat
  temperature : Option Str
  mirostat : Option Nat
  mirostat_eta : Option Str
  mirostat_tau : Option Str
deriving DecidableEq

/-- ConfigurationFile, restricted to the fields the inference engine reads
(colors, justification, thread/batch sizes and the profile list feed the UI
or the external model runtime). -/
structure ConfigurationFile where
  display_name : Str
  stop_on_display_name : Bool
  text_to_token_ratio_prediction : Option ℚ
  maximum_new_tokens : Option Nat
  models : List ConfiguredLlm
deriving DecidableEq

/-- ConfigurationFile::find_model_configuration. -/
def findModelConfiguration (cfg : ConfigurationFile) (nameOrPath : Str) :
    Option ConfiguredLlm :=
  cfg.models.find? (fun m =>
    match m.path with
    | some localPath =>
        eqIgnoreAsciiCase m.name nameOrPath || eqIgnoreAsciiCase localPath nameOrPath
    | none => eqIgnoreAsciiCase m.name nameOrPath)

/- ===================== llm_engine.rs data types ======================== -/

/-- TextInferenceContext. -/
structure TextInferenceContext where
  character : CharacterFileYaml
  model_config_override : Option Str
  chatlog_owner : CharacterFileYaml
  other_participants : List (CharacterFileYaml × Option Str)
  chatlog : ChatLog
  should_continue : Bool
  parameters : ConfiguredParameters
deriving DecidableEq

inductive LlmEngineRequest where
  | TextInference (ctx : TextInferenceContext)
  | ImmediateShutdown
deriving DecidableEq

inductive LlmEngineResponse where
  | NewText (text : Option Str) (ctx : TextInferenceContext)
  | ModelLoaded
deriving DecidableEq

/-- VectorEmbeddingEngine: the BERT model, tokenizer and device are
external compute; the operations the engine invokes on them are function
fields.  genEmbed models generate_vector_embedding, where None is the
error outcome (logged and skipped while encoding, but unwrapped into a
panic on the query side).  rankMatches models only the panic-free
cosine-similarity ranking of get_sentence_similarity_for_last after the
query embedding has been obtained (sort by score, cap at the requested
count, render the matched items), as a function of the query embedding,
the chat log and the requested count; the panic paths of that source
function are modelled separately in getSentenceSimilarityForLast. -/
structure VectorEmbeddingEngine where
  token_cutoff_limit : Nat
  encode_pretext : Option Str
  query_pretext : Option Str
  genEmbed : Str → Option Nat
  rankMatches : Nat → ChatLog → Nat → List Str

/-- EngineState.  The loaded model handle and the thread rng live in the
external runtime; the path dispatch only consults model_config.path. -/
structure EngineState where
  model_config : ConfiguredLlm
  default_model_config : ConfiguredLlm
  config : ConfigurationFile
  embedding_engine : Option VectorEmbeddingEngine

/-- TextgenRemoteRequestKobold, the JSON body of the remote generation
request (f32 fields as rendered strings). -/
structure TextgenRemoteRequestKobold where
  prompt : Str
  max_context_length : Option Nat
  max_length : Option Nat
  rep_pen : Option Str
  rep_pen_range : Option Nat
  sampler_seed : Option Int
  temperature : Option Str
  top_k : Option Nat
  top_p : Option Str
  min_p : Option Str
  typical : Option Str
  mirostat : Option Nat
  mirostat_tau : Option Str
  mirostat_eta : Option Str
  trim_stop : Option Bool
  stop_sequence : Option (List Str)

/- ============== VectorEmbeddingEngine::build_all_vector_embeddings ===== -/

/-- Default ratio of text characters per token (source constant, value 3.0). -/
def defaultTextToTokenRatioQ : ℚ := 3

def defaultMaxNewTokens : Nat := 150

def defaultNumOfSentenceMatches : Nat := 3

/-- The chunking loop of build_all_vector_embeddings: pack lines into a
buffer while the character budget allows; on overflow emit the buffer (or
the overlong line itself when the buffer is empty) and clear it; the final
buffer is always emitted.  Faithful to the source, including the quirk that
a line arriving at a non-empty full buffer is dropped. -/
def chunkGo (limit : Nat) : List Str → Str → List Str
  | [], buffer => [buffer]
  | line :: rest, buffer =>
    if buffer.length + line.length < limit then chunkGo limit rest (buffer ++ line)
    else (if buffer = [] then line else buffer) :: chunkGo limit rest []

def chunkText (limit : Nat) (text : Str) : List Str := chunkGo limit (linesOf text) []

/-- Embeddings computed for one chat log item: chunk its whole text with the
budget token_cutoff_limit * 3, prepend the encode pretext and embed each
chunk, keeping the successful outcomes. -/
def buildItemEmbeddings (eng : VectorEmbeddingEngine) (item : ChatLogItem) : List Nat :=
  let wholeText := getNameAndItemsAsString item
  let chunks := chunkText (eng.token_cutoff_limit * 3) wholeText
  let pretext := eng.encode_pretext.getD []
  chunks.filterMap (fun line => eng.genEmbed (pretext ++ line))

/-- VectorEmbeddingEngine::build_all_vector_embeddings over the item list:
items that already carry embeddings are skipped unless force_recalculation
is set; otherwise the embeddings field is recomputed.  entity and lines are
never written. -/
def buildAllVectorEmbeddings (eng : VectorEmbeddingEngine) (force : Bool)
    (items : List ChatLogItem) : List ChatLogItem :=
  items.map (fun it =>
    if it.embeddings ≠ [] ∧ force = false then it
    else { it with embeddings := buildItemEmbeddings eng it })

/-- VectorEmbeddingEngine::get_sentence_similarity_for_last, projected to
the matched item texts.  Except.error models the two panics of the source:
the index expression chatlog.len() - 1 - extra_offset underflows whenever
the log holds at most extra_offset items (a debug-build subtraction panic;
in release it wraps, the out-of-range get returns None and the unwrap
fires, so both builds panic exactly when items.length is at most
extra_offset), and the unwrap on the query-embedding result fires when
generate_vector_embedding fails.  Past those two points the source cannot
panic, and the cosine ranking is the abstract rankMatches field applied to
the query embedding. -/
def getSentenceSimilarityForLast (eng : VectorEmbeddingEngine) (chatlog : ChatLog)
    (extraOffset numberRequested : Nat) : Except Str (List Str) :=
  if chatlog.items.length ≤ extraOffset then
    Except.error
      (chars "Attempting to get last chatlogitem in the log to use for searching embeddings")
  else
    match chatlog.items[chatlog.items.length - 1 - extraOffset]? with
    | none =>
      Except.error
        (chars "Attempting to get last chatlogitem in the log to use for searching embeddings")
    | some lastItem =>
      let text := getNameAndItemsAsString lastItem
      match eng.genEmbed (eng.query_pretext.getD [] ++ text) with
      | none =>
        Except.error (chars "Generating embedding for query in sentence similarity test.")
      | some queryEmb => Except.ok (eng.rankMatches queryEmb chatlog numberRequested)

/- ============== EngineState::create_prompt_for_chat_input ============== -/

/-- Description and context substitutions (the first block of
create_prompt_for_chat_input): character description, current context and,
when present, the user description. -/
def descStage (st : EngineState) (ctx : TextInferenceContext) : Str :=
  let buf := st.model_config.prompt_instruct_template
  let buf := replaceAll (chars "<|character_description|>") ctx.character.description buf
  let buf := replaceAll (chars "<|current_context|>") ctx.chatlog.current_context buf
  match ctx.chatlog.user_description with
  | some userDesc => replaceAll (chars "<|user_description|>") userDesc buf
  | none => buf

/-- The similar-sentences block: only entered when the template still
contains the tag and the chat log is non-empty; with an embedding engine it
refreshes the embeddings and substitutes the joined matches (panicking when
get_sentence_similarity_for_last panics), without one it substitutes the
empty string (after a logged warning). -/
def similarStage (st : EngineState) (ctx : TextInferenceContext) (buf : Str) :
    Except Str (Str × TextInferenceContext) :=
  if containsSub (chars "<|similar_sentences|>") buf ∧ 0 < ctx.chatlog.items.length then
    match st.embedding_engine with
    | some eng =>
      let items2 := buildAllVectorEmbeddings eng false ctx.chatlog.items
      let ctx2 := { ctx with chatlog := { ctx.chatlog with items := items2 } }
      let requestedMatchCount := st.model_config.similar_sentence_count.getD defaultNumOfSentenceMatches
      let endOffset := if ctx.should_continue then 1 else 0
      match getSentenceSimilarityForLast eng ctx2.chatlog endOffset requestedMatchCount with
      | Except.error e => Except.error e
      | Except.ok matchedStrings =>
        Except.ok
          (replaceAll (chars "<|similar_sentences|>") (joinSep '\n' matchedStrings) buf, ctx2)
    | none => Except.ok (replaceAll (chars "<|similar_sentences|>") [] buf, ctx)
  else Except.ok (buf, ctx)

/-- Name substitutions, deliberately last among the tag substitutions. -/
def nameStage (st : EngineState) (ctx : TextInferenceContext) (buf : Str) : Str :=
  let buf := replaceAll (chars "<|character_name|>") ctx.character.name buf
  replaceAll (chars "<|user_name|>") st.config.display_name buf

/-- Floor of tokens * ratio for a nonnegative rational ratio, computed on
the reduced numerator and denominator. -/
def ratioScaledFloor (tokens : Nat) (ratio : ℚ) : Nat :=
  tokens * ratio.num.toNat / ratio.den

/-- The remaining character budget for chat history, in text characters:
(context_size - maximum_new_tokens) * ratio, floored, minus the length of
the prompt built so far.  Both subtractions are Rust usize subtractions;
theorems about the value assume they do not underflow. -/
def promptLimitOf (st : EngineState) (bufLen : Nat) : Nat :=
  let ratio := st.config.text_to_token_ratio_prediction.getD defaultTextToTokenRatioQ
  let tokenCount := st.config.maximum_new_tokens.getD defaultMaxNewTokens
  ratioScaledFloor (st.model_config.context_size - tokenCount) ratio - bufLen

/-- The reverse walk over the conversation.  turnStrs is the list of
rendered turn strings, newest first.  In continuation mode the first turn
whose text has not yet been claimed becomes the continuation line, with the
speaking character name prefix (plus one character) stripped when present;
every other turn is prepended to the history unless the budget would be
reached, in which case the walk stops. -/
def historyGo (charName : Str) (shouldContinue : Bool) (promptLimit : Nat) :
    List Str → Str → Str → Str × Str
  | [], historyLog, continueLine => (historyLog, continueLine)
  | turnStr :: rest, historyLog, continueLine =>
    if shouldContinue ∧ continueLine = [] then
      let continueLine2 :=
        if charName <+: turnStr then turnStr.drop (charName.length + 1) else turnStr
      historyGo charName shouldContinue promptLimit rest historyLog continueLine2
    else
      let newHistory := turnStr ++ '\n' :: historyLog
      if promptLimit ≤ newHistory.length + continueLine.length then (historyLog, continueLine)
      else historyGo charName shouldContinue promptLimit rest newHistory continueLine

/-- History log and continuation line for a context, given the prompt built
so far (buf2). -/
def chatHistoryPair (st : EngineState) (ctx : TextInferenceContext) (buf2 : Str) :
    Str × Str :=
  historyGo ctx.character.name ctx.should_continue (promptLimitOf st buf2.length)
    ((ctx.chatlog.items.reverse).map getNameAndItemsAsString) [] []

/-- The tail of create_prompt_for_chat_input after the similar-sentences
block: name substitutions, history walk, history substitution (trailing
whitespace stripped) and the appended continuation line. -/
def promptFinalize (st : EngineState) (ctx : TextInferenceContext) (buf1 : Str) :
    Str × TextInferenceContext :=
  let buf2 := nameStage st ctx buf1
  let pair := chatHistoryPair st ctx buf2
  let buf3 := replaceAll (chars "<|chat_history|>") (trimEndStr pair.fst) buf2
  (if pair.snd = [] then buf3 else buf3 ++ pair.snd, ctx)

/-- EngineState::create_prompt_for_chat_input: the full prompt assembly,
returning the assembled prompt together with the context as mutated by the
assembly (embedding refresh only), or a panic escaping from the
similar-sentences retrieval. -/
def createPromptForChatInput (st : EngineState) (ctx : TextInferenceContext) :
    Except Str (Str × TextInferenceContext) :=
  match similarStage st ctx (descStage st ctx) with
  | Except.error e => Except.error e
  | Except.ok p => Except.ok (promptFinalize st p.snd p.fst)

/- ============== EngineState::split_inference_at_display_names ========== -/

/-- One earliest-occurrence update step, shared by the four name checks of
split_inference_at_display_names. -/
def updateEarliest (s : Str) (earliest : Option Nat) (pat : Str) : Option Nat :=
  match findSub pat s with
  | some found => if found < earliest.getD s.length then some found else earliest
  | none => earliest

/-- The stop phrases checked, in source order: the user display name, the
speaking character, the chat log owner when their name differs from the
speaking character (ASCII case insensitively), then every other
participant. -/
def stopPatterns (st : EngineState) (ctx : TextInferenceContext) : List Str :=
  [st.config.display_name ++ chars ":", ctx.character.name ++ chars ":"]
    ++ (if eqIgnoreAsciiCase ctx.character.name ctx.chatlog_owner.name then []
        else [ctx.chatlog_owner.name ++ chars ":"])
    ++ ctx.other_participants.map (fun other => other.fst.name ++ chars ":")

/-- EngineState::split_inference_at_display_names: truncate the inferred
string at the earliest occurrence of any stop phrase. -/
def splitInferenceAtDisplayNames (st : EngineState) (ctx : TextInferenceContext)
    (s : Str) : Str :=
  match (stopPatterns st ctx).foldl (updateEarliest s) none with
  | some earliest => s.take earliest
  | none => s

/- ============== sampler configuration (EngineState::text_infer) ======== -/

/-- The repetition-penalty fragment of the sampler string. -/
def repPenPart (p : ConfiguredParameters) : Str :=
  match p.repeat_penalty with
  | some repPen =>
    chars "repetition:penalty=" ++ repPen
      ++ (match p.repeat_penalty_range with
          | some penRange => chars ":last_n=" ++ natStr penRange
          | none => [])
  | none => []

/-- The mirostat fragment of the sampler string: emitted only for the valid
mirostat types 1 and 2, with optional eta and tau. -/
def mirostatPart (p : ConfiguredParameters) : Str :=
  match p.mirostat with
  | some m =>
    if m = 1 ∨ m = 2 then
      chars " mirostat" ++ natStr m
        ++ (match p.mirostat_eta with
            | some eta => chars ":eta=" ++ eta
            | none => [])
        ++ (match p.mirostat_tau with
            | some tau => chars ":tau=" ++ tau
            | none => [])
    else []
  | none => []

/-- The classical-knob fragment of the sampler string: top_k, top_p, min_p
and temperature. -/
def classicalPart (p : ConfiguredParameters) : Str :=
  (match p.top_k with
   | some k => chars " top_k:k=" ++ natStr k ++ chars ":min_keep=1"
   | none => [])
    ++ (match p.top_p with
        | some tp => chars " top_p:p=" ++ tp ++ chars ":min_keep=1"
        | none => [])
    ++ (match p.min_p with
        | some mp => chars " min_p:p=" ++ mp ++ chars ":min_keep=1"
        | none => [])
    ++ (match p.temperature with
        | some t => chars " temperature:temperature=" ++ t
        | none => [])

/-- The sampler configuration string built by EngineState::text_infer and
handed to ConfiguredSamplers::from_str: the repetition-penalty fragment,
then either the mirostat fragment (when the mirostat field is present) or
the classical knobs (when it is absent). -/
def buildSamplerString (p : ConfiguredParameters) : Str :=
  repPenPart p
    ++ (match p.mirostat with
        | some _ => mirostatPart p
        | none => classicalPart p)

/- ============== remote path (EngineState::text_infer_kobold) =========== -/

/-- The stop sequence array: the user display name, the speaking character
and, when the participant list is non-empty, every other participant, each
rendered as the name followed by a colon and a space. -/
def buildStopSeqs (st : EngineState) (ctx : TextInferenceContext) : List Str :=
  let base := [st.config.display_name ++ chars ": ", ctx.character.name ++ chars ": "]
  if ctx.other_participants.isEmpty then base
  else base ++ ctx.other_participants.map (fun other => other.fst.name ++ chars ": ")

/-- The JSON body built for the remote generation request. -/
def buildKoboldRequest (st : EngineState) (ctx : TextInferenceContext) (prompt : Str) :
    TextgenRemoteRequestKobold :=
  { prompt := prompt
    max_context_length := some st.model_config.context_size
    max_length := st.config.maximum_new_tokens
    rep_pen := ctx.parameters.repeat_penalty
    rep_pen_range := ctx.parameters.repeat_penalty_range
    sampler_seed := none
    temperature := ctx.parameters.temperature
    top_k := ctx.parameters.top_k
    top_p := ctx.parameters.top_p
    min_p := ctx.parameters.min_p
    typical := none
    mirostat := ctx.parameters.mirostat
    mirostat_tau := ctx.parameters.mirostat_tau
    mirostat_eta := ctx.parameters.mirostat_eta
    trim_stop := some true
    stop_sequence :=
      if st.config.stop_on_display_name then some (buildStopSeqs st ctx) else none }

/-- Outcome of the blocking HTTP POST: a transport error (which the source
turns into a panic through expect), or a status code together with the
body-parse outcome (body read or JSON deserialization failure also panics),
the parsed body projected to the result texts. -/
def KoboldOracle : Type := TextgenRemoteRequestKobold → Except Str (Nat × Except Str (List Str))

/-- EngineState::text_infer_kobold.  Except.error models a worker panic:
a panic escaping from prompt assembly (retrieval augmentation), then the
expect on the transport send and on the body read and parse, while a
non-success status or an empty result list returns None. -/
def textInferKobold (st : EngineState) (http : KoboldOracle) (ctx : TextInferenceContext) :
    Except Str (Option Str × TextInferenceContext) :=
  match createPromptForChatInput st ctx with
  | Except.error e => Except.error e
  | Except.ok pc =>
    let req := buildKoboldRequest st pc.snd pc.fst
    match http req with
    | Except.error _ =>
      Except.error (chars "KoboldAPI call failed for generating text from a prompt")
    | Except.ok (status, bodyParse) =>
      if status = 200 then
        match bodyParse with
        | Except.error _ =>
          Except.error
            (chars "KoboldAPI: Failed to deserialize the JSON from the text generation response body.")
        | Except.ok results =>
          match results with
          | [] => Except.ok (none, pc.snd)
          | r0 :: _ =>
            let inferred :=
              if st.config.stop_on_display_name then splitInferenceAtDisplayNames st pc.snd r0
              else r0
            Except.ok (some inferred, pc.snd)
      else Except.ok (none, pc.snd)

/- ============== local path (EngineState::text_infer) =================== -/

/-- EngineState::text_infer with the in-process generation abstracted by an
oracle from sampler string and prompt to the collected token text.  The
source logs an inference error and still returns the collected text, so the
local path produces a Some payload whenever prompt assembly completes; a
panic escaping from assembly (retrieval augmentation) kills the worker. -/
def textInferLocal (localInfer : Str → Str → Str) (st : EngineState)
    (ctx : TextInferenceContext) : Except Str (Option Str × TextInferenceContext) :=
  match createPromptForChatInput st ctx with
  | Except.error e => Except.error e
  | Except.ok pc =>
    let inferred := localInfer (buildSamplerString ctx.parameters) pc.fst
    let final :=
      if st.config.stop_on_display_name then splitInferenceAtDisplayNames st pc.snd inferred
      else inferred
    Except.ok (some final, pc.snd)

/- ============== the worker loop (LlmEngine::spawn) ===================== -/

/-- External backends: the remote HTTP call, the local token generation,
and the local model load (loadModel path is true when llm::load_dynamic
succeeds for that path; the source panics on a failed load). -/
structure BackendOracles where
  http : KoboldOracle
  localInfer : Str → Str → Str
  loadModel : Str → Bool

/-- The model configuration the request asks the worker to switch to: a
differing override, or the default when a prior override is still
active. -/
def cfgToLoad (st : EngineState) (ctx : TextInferenceContext) : Option Str :=
  match ctx.model_config_override with
  | some ovr => if st.model_config.name = ovr then none else some ovr
  | none =>
    if st.model_config.name = st.default_model_config.name then none
    else some st.default_model_config.name

/-- The hot-swap block of the worker loop.  A name that resolves to no
configured model panics the worker (unwrap on find_model_configuration),
and a failed load of the replacement local model also panics the worker
(unwrap_or_else into panic on llm::load_dynamic); a remote replacement has
no path and loads nothing. -/
def hotSwap (loadModel : Str → Bool) (st : EngineState) (ctx : TextInferenceContext) :
    Except Str EngineState :=
  match cfgToLoad st ctx with
  | none => Except.ok st
  | some cfgName =>
    match findModelConfiguration st.config cfgName with
    | none =>
      Except.error
        (chars "Attempting to find the model name provided in the configuration on text inferrence request")
    | some modelConfig =>
      match modelConfig.path with
      | some localModelPath =>
        if loadModel localModelPath then Except.ok { st with model_config := modelConfig }
        else Except.error (chars "Failed to load model")
      | none => Except.ok { st with model_config := modelConfig }

/-- Processing of one TextInference request: hot-swap if needed, then
dispatch on the presence of a local model path.  Except.error models a
worker panic. -/
def stepTextInference (oracles : BackendOracles) (st : EngineState)
    (ctx : TextInferenceContext) : Except Str (LlmEngineResponse × EngineState) :=
  match hotSwap oracles.loadModel st ctx with
  | Except.error e => Except.error e
  | Except.ok st2 =>
    if st2.model_config.path.isSome then
      match textInferLocal oracles.localInfer st2 ctx with
      | Except.error e => Except.error e
      | Except.ok r => Except.ok (LlmEngineResponse.NewText r.fst r.snd, st2)
    else
      match textInferKobold st2 oracles.http ctx with
      | Except.error e => Except.error e
      | Except.ok r => Except.ok (LlmEngineResponse.NewText r.fst r.snd, st2)

/-- The request loop: block on the next request; ImmediateShutdown ends the
loop; a TextInference request produces exactly one response unless its
processing panics, which kills the worker thread and therefore ends the
response stream. -/
def processLoop (oracles : BackendOracles) (st : EngineState) :
    List LlmEngineRequest → List LlmEngineResponse
  | [] => []
  | LlmEngineRequest.ImmediateShutdown :: _ => []
  | LlmEngineRequest.TextInference ctx :: rest =>
    match stepTextInference oracles st ctx with
    | Except.error _ => []
    | Except.ok (resp, st2) => resp :: processLoop oracles st2 rest

/-- The worker from the point the initial model load has succeeded: the
ModelLoaded acknowledgement followed by the request loop. -/
def runWorker (oracles : BackendOracles) (st : EngineState)
    (reqs : List LlmEngineRequest) : List LlmEngineResponse :=
  LlmEngineResponse.ModelLoaded :: processLoop oracles st reqs

/-- The engine state after processing one request (unchanged when the
request panics; the trace theorems only consult it on panic-free runs). -/
def stateAfterStep (oracles : BackendOracles) (st : EngineState)
    (ctx : TextInferenceContext) : EngineState :=
  match stepTextInference oracles st ctx with
  | Except.ok (_, st2) => st2
  | Except.error _ => st

def stateAfter (oracles : BackendOracles) (st : EngineState) :
    List TextInferenceContext → EngineState
  | [] => st
  | c :: cs => stateAfter oracles (stateAfterStep oracles st c) cs

/-- Decidable predicate: every request in the list processes without a
panic. -/
def noPanics (oracles : BackendOracles) (st : EngineState) :
    List TextInferenceContext → Bool
  | [] => true
  | c :: cs =>
    match stepTextInference oracles st c with
    | Except.error _ => false
    | Except.ok (_, st2) => noPanics oracles st2 cs

/-- Projection of a chat log item to the data prompt assembly may read but
never write: speaker name and lines. -/
def turnData (it : ChatLogItem) : Str × List Str := (it.entity, it.lines)

/- ================= concrete fixtures for evaluation ==================== -/

def aliceFx : CharacterFileYaml := { name := chars "Alice", description := chars "a helper" }

def bobFx : CharacterFileYaml := { name := chars "Bob", description := chars "the owner" }

def paramsFx : ConfiguredParameters :=
  { name := chars "default", top_k := none, top_p := none, min_p := none
    repeat_penalty := none, repeat_penalty_range := none, temperature := none
    mirostat := none, mirostat_eta := none, mirostat_tau := none }

def mcRemoteFx : ConfiguredLlm :=
  { name := chars "m1", path := none, remote_server := some (chars "http://localhost:5001")
    remote_timeout_s := none, context_size := 2048, similar_sentence_count := none
    prompt_instruct_template := chars "<|chat_history|>" }

def mcLocalFx : ConfiguredLlm :=
  { name := chars "m1", path := some (chars "/models/m1.bin"), remote_server := none
    remote_timeout_s := none, context_size := 2048, similar_sentence_count := none
    prompt_instruct_template := chars "<|chat_history|>" }

def cfgFx : ConfigurationFile :=
  { display_name := chars "USER", stop_on_display_name := true
    text_to_token_ratio_prediction := some 3, maximum_new_tokens := some 150
    models := [mcRemoteFx] }

def stRemoteFx : EngineState :=
  { model_config := mcRemoteFx, default_model_config := mcRemoteFx, config := cfgFx
    embedding_engine := none }

def stLocalFx : EngineState :=
  { model_config := mcLocalFx, default_model_config := mcLocalFx
    config := { cfgFx with models := [mcLocalFx] }, embedding_engine := none }

def emptyLogFx : ChatLog := { user_description := none, current_context := chars "", items := [] }

def ctxRemoteFx : TextInferenceContext :=
  { character := aliceFx, model_config_override := none, chatlog_owner := aliceFx
    other_participants := [], chatlog := emptyLogFx, should_continue := false
    parameters := paramsFx }

def oraclesFx : BackendOracles :=
  { http := fun _ => Except.ok (200, Except.ok [chars "hi there"])
    localInfer := fun _ _ => chars "hello"
    loadModel := fun _ => true }

/-- An embedding engine whose external calls all succeed, for exercising
the retrieval panic that fires before any of them is consulted. -/
def engFx : VectorEmbeddingEngine :=
  { token_cutoff_limit := 256, encode_pretext := none, query_pretext := none
    genEmbed := fun _ => some 0, rankMatches := fun _ _ _ => [] }

/-- Remote-model state with the similar-sentences template and a
configured embedding engine. -/
def stEmbedFx : EngineState :=
  { model_config := { mcRemoteFx with prompt_instruct_template := chars "<|similar_sentences|>" }
    default_model_config :=
      { mcRemoteFx with prompt_instruct_template := chars "<|similar_sentences|>" }
    config := cfgFx
    embedding_engine := some engFx }

/-- A request naming a model configuration that does not exist. -/
def ctxBadOverrideFx : TextInferenceContext :=
  { ctxRemoteFx with model_config_override := some (chars "nosuch") }

/-- Fixture for the history-budget counterexample: a 10-token context
window, 5 max new tokens and ratio 6 leave a 14-character budget under the
16-character template, while the only turn renders to 20 characters. -/
def stTightFx : EngineState :=
  { model_config := { mcLocalFx with context_size := 10 }
    default_model_config := { mcLocalFx with context_size := 10 }
    config := { cfgFx with
      text_to_token_ratio_prediction := some 6
      maximum_new_tokens := some 5
      models := [] }
    embedding_engine := none }

def ctxTightFx : TextInferenceContext :=
  { ctxRemoteFx with
    chatlog := { emptyLogFx with
      items := [{ entity := chars "Alice", lines := [chars "Hello world!!"], embeddings := [] }] } }

/-- Fixture for the continuation-mode witness: one turn rendering to
exactly the text named in the claim. -/
def ctxContinueFx : TextInferenceContext :=
  { ctxRemoteFx with
    should_continue := true
    chatlog := { emptyLogFx with
      items := [{ entity := chars "Alice", lines := [chars "Hello wor"], embeddings := [] }] } }

/-- Fixture for the stop-sequence counterexample: the chat log owner Bob
differs from the speaking character Alice and is not an other
participant. -/
def ctxOwnerFx : TextInferenceContext :=
  { ctxRemoteFx with chatlog_owner := bobFx }

def stSimilarFx : EngineState :=
  { stRemoteFx with
    model_config := { mcRemoteFx with prompt_instruct_template := chars "<|similar_sentences|>" }
    default_model_config := { mcRemoteFx with prompt_instruct_template := chars "<|similar_sentences|>" } }

def ctxOneTurnFx : TextInferenceContext :=
  { ctxRemoteFx with
    chatlog := { emptyLogFx with
      items := [{ entity := chars "Alice", lines := [chars "hi"], embeddings := [] }] } }

def ctxMultiFx : TextInferenceContext :=
  { ctxRemoteFx with other_participants := [(bobFx, none)] }

def paramsMiroFx : ConfiguredParameters :=
  { paramsFx with
    top_k := some 40, top_p := some (chars "0.9"), min_p := some (chars "0.05")
    temperature := some (chars "0.7"), repeat_penalty := some (chars "1.1")
    repeat_penalty_range := some 64, mirostat := some 2
    mirostat_eta := some (chars "0.1"), mirostat_tau := some (chars "5") }

def paramsMiroZeroFx : ConfiguredParameters :=
  { paramsMiroFx with mirostat := some 0 }

/- ======================= helper lemmas ================================= -/

theorem findSub_isPre (pat : Str) :
    ∀ (s : Str) (i : Nat), findSub pat s = some i → pat <+: s.drop i := by
  intro s
  induction s with
  | nil =>
    intro i h
    simp only [findSub] at h
    by_cases hp : pat = ([] : Str)
    · rw [if_pos hp] at h
      cases h
      simp [hp]
    · rw [if_neg hp] at h
      cases h
  | cons c rest ih =>
    intro i h
    simp only [findSub] at h
    by_cases hp : pat <+: (c :: rest)
    · rw [if_pos hp] at h
      cases h
      simpa using hp
    · rw [if_neg hp] at h
      rcases Option.map_eq_some'.mp h with ⟨j, hj, hij⟩
      subst hij
      simpa using ih j hj

theorem findSub_min (pat : Str) :
    ∀ (s : Str) (i : Nat), findSub pat s = some i →
      ∀ j, j < i → ¬ (pat <+: s.drop j) := by
  intro s
  induction s with
  | nil =>
    intro i h j hj
    simp only [findSub] at h
    by_cases hp : pat = ([] : Str)
    · rw [if_pos hp] at h
      cases h
      omega
    · rw [if_neg hp] at h
      cases h
  | cons c rest ih =>
    intro i h j hj
    simp only [findSub] at h
    by_cases hp : pat <+: (c :: rest)
    · rw [if_pos hp] at h
      cases h
      omega
    · rw [if_neg hp] at h
      rcases Option.map_eq_some'.mp h with ⟨i0, hi0, hii⟩
      subst hii
      cases j with
      | zero => simpa using hp
      | succ j0 =>
        have := ih i0 hi0 j0 (by omega)
        simpa using this

theorem findSub_complete (pat : Str) :
    ∀ (s : Str) (j : Nat), pat <+: s.drop j →
      ∃ i, findSub pat s = some i ∧ i ≤ j := by
  intro s
  induction s with
  | nil =>
    intro j h
    simp only [List.drop_nil] at h
    have hp : pat = ([] : Str) := List.prefix_nil.mp h
    exact ⟨0, by simp [findSub, hp], by omega⟩
  | cons c rest ih =>
    intro j h
    by_cases hp : pat <+: (c :: rest)
    · exact ⟨0, by simp [findSub, hp], by omega⟩
    · cases j with
      | zero =>
        simp only [List.drop_zero] at h
        exact absurd h hp
      | succ j0 =>
        simp only [List.drop_succ_cons] at h
        rcases ih j0 h with ⟨i0, hi0, hle⟩
        refine ⟨i0 + 1, ?_, by omega⟩
        simp [findSub, hp, hi0]

theorem nonnil_of_isPre {pat s : Str} (hne : pat ≠ []) (h : pat <+: s) : s ≠ [] := by
  rcases h with ⟨t, rfl⟩
  simp only [ne_eq, List.append_eq_nil]
  intro hc
  exact hne hc.1

theorem findSub_lt_length {pat : Str} (hne : pat ≠ []) :
    ∀ (s : Str) (i : Nat), findSub pat s = some i → i < s.length := by
  intro s i h
  have hpre := findSub_isPre pat s i h
  have hnn : s.drop i ≠ [] := nonnil_of_isPre hne hpre
  by_contra hlt
  exact hnn (List.drop_eq_nil_of_le (by omega))

theorem isPre_of_take {pat s : Str} {k j : Nat} (hne : pat ≠ [])
    (h : pat <+: (s.take k).drop j) : j < k ∧ pat <+: s.drop j := by
  rw [List.drop_take] at h
  have h2 : pat <+: s.drop j :=
    h.trans ⟨(s.drop j).drop (k - j), List.take_append_drop _ _⟩
  refine ⟨?_, h2⟩
  have hnn := nonnil_of_isPre hne h
  by_contra hjk
  have : k - j = 0 := by omega
  rw [this] at hnn
  simp at hnn

theorem updateEarliest_of_none {s : Str} {acc : Option Nat} {pat : Str}
    (h : findSub pat s = none) : updateEarliest s acc pat = acc := by
  simp [updateEarliest, h]

theorem foldl_updateEarliest_some {s : Str} (pats : List Str) :
    ∀ (e : Nat), ∃ e2, pats.foldl (updateEarliest s) (some e) = some e2 ∧ e2 ≤ e := by
  induction pats with
  | nil => intro e; exact ⟨e, rfl, le_refl e⟩
  | cons p ps ih =>
    intro e
    rw [List.foldl_cons]
    rcases hf : findSub p s with _ | j
    · rw [updateEarliest_of_none hf]
      exact ih e
    · simp only [updateEarliest, hf, Option.getD_some]
      by_cases hj : j < e
      · rw [if_pos hj]
        rcases ih j with ⟨e2, he2, hle⟩
        exact ⟨e2, he2, by omega⟩
      · rw [if_neg hj]
        exact ih e

theorem foldl_updateEarliest_none {s : Str} (pats : List Str)
    (hne : ∀ p ∈ pats, p ≠ []) :
    pats.foldl (updateEarliest s) none = none → ∀ p ∈ pats, findSub p s = none := by
  induction pats with
  | nil => intro _ p hp; cases hp
  | cons p ps ih =>
    intro h q hq
    rw [List.foldl_cons] at h
    rcases hf : findSub p s with _ | j
    · rw [updateEarliest_of_none hf] at h
      rcases List.mem_cons.mp hq with rfl | hq2
      · exact hf
      · exact ih (fun r hr => hne r (List.mem_cons_of_mem _ hr)) h q hq2
    · exfalso
      have hj : j < s.length := findSub_lt_length (hne p (List.mem_cons_self p ps)) s j hf
      simp only [updateEarliest, hf, Option.getD_none, if_pos hj] at h
      rcases foldl_updateEarliest_some (s := s) ps j with ⟨e2, he2, _⟩
      rw [h] at he2
      cases he2

theorem foldl_updateEarliest_min {s : Str} (pats : List Str)
    (hne : ∀ p ∈ pats, p ≠ []) :
    ∀ (acc : Option Nat) (e : Nat), pats.foldl (updateEarliest s) acc = some e →
      (∀ p ∈ pats, ∀ j, findSub p s = some j → e ≤ j) ∧
      (∀ a, acc = some a → e ≤ a) := by
  induction pats with
  | nil =>
    intro acc e h
    simp only [List.foldl_nil] at h
    subst h
    refine ⟨?_, ?_⟩
    · intro p hp
      cases hp
    · intro a ha
      cases ha
      exact le_refl e
  | cons p ps ih =>
    intro acc e h
    rw [List.foldl_cons] at h
    have hne2 : ∀ r ∈ ps, r ≠ [] := fun r hr => hne r (List.mem_cons_of_mem _ hr)
    rcases ih hne2 (updateEarliest s acc p) e h with ⟨Hps, Hacc2⟩
    have hA : ∀ j, findSub p s = some j → e ≤ j := by
      intro j hj
      have hjlt : j < s.length := findSub_lt_length (hne p (List.mem_cons_self p ps)) s j hj
      rcases acc with _ | a
      · have : updateEarliest s none p = some j := by
          simp [updateEarliest, hj, hjlt]
        exact Hacc2 j this
      · by_cases hja : j < a
        · have : updateEarliest s (some a) p = some j := by
            simp [updateEarliest, hj, hja]
          exact Hacc2 j this
        · have : updateEarliest s (some a) p = some a := by
            simp [updateEarliest, hj, hja]
          have := Hacc2 a this
          omega
    refine ⟨?_, ?_⟩
    · intro q hq j hj
      rcases List.mem_cons.mp hq with rfl | hq2
      · exact hA j hj
      · exact Hps q hq2 j hj
    · intro a ha
      subst ha
      rcases hf : findSub p s with _ | j
      · exact Hacc2 a (by rw [updateEarliest_of_none hf])
      · by_cases hja : j < a
        · have := hA j hf
          omega
        · exact Hacc2 a (by simp [updateEarliest, hf, hja])

theorem foldl_updateEarliest_all_none {t : Str} (pats : List Str)
    (h : ∀ p ∈ pats, findSub p t = none) :
    pats.foldl (updateEarliest t) none = none := by
  induction pats with
  | nil => rfl
  | cons p ps ih =>
    rw [List.foldl_cons, updateEarliest_of_none (h p (List.mem_cons_self p ps))]
    exact ih (fun r hr => h r (List.mem_cons_of_mem _ hr))

theorem stopPatterns_ne_nil (st : EngineState) (ctx : TextInferenceContext) :
    ∀ p ∈ stopPatterns st ctx, p ≠ [] := by
  intro p hp
  have hq : ∃ q : Str, p = q ++ chars ":" := by
    simp only [stopPatterns, List.mem_append, List.mem_cons, List.mem_map,
      List.not_mem_nil, or_false] at hp
    rcases hp with ((h | h) | h) | ⟨x, _, h⟩
    · exact ⟨st.config.display_name, h⟩
    · exact ⟨ctx.character.name, h⟩
    · by_cases hcase : eqIgnoreAsciiCase ctx.character.name ctx.chatlog_owner.name
      · rw [if_pos hcase] at h
        cases h
      · rw [if_neg hcase] at h
        simp only [List.mem_singleton] at h
        exact ⟨ctx.chatlog_owner.name, h⟩
    · exact ⟨x.fst.name, h.symm⟩
  rcases hq with ⟨q, rfl⟩
  simp [chars]

theorem replaceAllGo_of_findSub_none (pat repl : Str) :
    ∀ (fuel : Nat) (s : Str), findSub pat s = none →
      replaceAllGo pat repl fuel s = s := by
  intro fuel
  induction fuel with
  | zero =>
    intro s _
    cases s with
    | nil => rfl
    | cons c rest => rfl
  | succ f ih =>
    intro s h
    cases s with
    | nil => rfl
    | cons c rest =>
      simp only [findSub] at h
      by_cases hp : pat <+: (c :: rest)
      · rw [if_pos hp] at h
        cases h
      · rw [if_neg hp] at h
        have h2 : findSub pat rest = none := Option.map_eq_none'.mp h
        rw [replaceAllGo, if_neg (by intro hc; exact hp hc.2), ih rest h2]

theorem replaceAll_of_findSub_none (pat repl : Str) :
    ∀ s, findSub pat s = none → replaceAll pat repl s = s := by
  intro s h
  exact replaceAllGo_of_findSub_none pat repl s.length s h

theorem historyGo_fst_bound (charName : Str) (sc : Bool) (pl : Nat) :
    ∀ (ts : List Str) (h c : Str), (h = [] ∨ h.length < pl) →
      ((historyGo charName sc pl ts h c).fst = [] ∨
        (historyGo charName sc pl ts h c).fst.length < pl) := by
  intro ts
  induction ts with
  | nil => intro h c hh; exact hh
  | cons t rest ih =>
    intro h c hh
    rw [historyGo]
    by_cases hcond : sc = true ∧ c = []
    · rw [if_pos hcond]
      exact ih h _ hh
    · rw [if_neg hcond]
      by_cases hbreak : pl ≤ (t ++ '\n' :: h).length + c.length
      · rw [if_pos hbreak]
        exact hh
      · rw [if_neg hbreak]
        exact ih _ c (Or.inr (by simp only [List.length_append] at *; omega))

theorem historyGo_snd_const (charName : Str) (sc : Bool) (pl : Nat) :
    ∀ (ts : List Str) (h c : Str), c ≠ [] →
      (historyGo charName sc pl ts h c).snd = c := by
  intro ts
  induction ts with
  | nil => intro h c _; rfl
  | cons t rest ih =>
    intro h c hc
    rw [historyGo]
    rw [if_neg (by intro hcond; exact hc hcond.2)]
    by_cases hbreak : pl ≤ (t ++ '\n' :: h).length + c.length
    · rw [if_pos hbreak]
    · rw [if_neg hbreak]
      exact ih _ c hc

theorem trimEndStr_length_le (s : Str) : (trimEndStr s).length ≤ s.length := by
  calc (trimEndStr s).length
      = ((s.reverse.dropWhile Char.isWhitespace)).length := by
        simp [trimEndStr]
    _ ≤ s.reverse.length := (List.dropWhile_sublist _).length_le
    _ = s.length := List.length_reverse s

theorem buildAllVectorEmbeddings_turnData (eng : VectorEmbeddingEngine) (force : Bool)
    (items : List ChatLogItem) :
    (buildAllVectorEmbeddings eng force items).map turnData = items.map turnData := by
  simp only [buildAllVectorEmbeddings, List.map_map]
  apply List.map_congr_left
  intro it _
  by_cases hcond : it.embeddings ≠ [] ∧ force = false
  · simp [hcond]
  · simp [hcond, turnData]

theorem similarStage_snd (st : EngineState) (ctx : TextInferenceContext) (buf : Str)
    (p : Str × TextInferenceContext) (h : similarStage st ctx buf = Except.ok p) :
    (p.snd.character = ctx.character ∧
      p.snd.should_continue = ctx.should_continue ∧
      p.snd.chatlog_owner = ctx.chatlog_owner ∧
      p.snd.other_participants = ctx.other_participants ∧
      p.snd.parameters = ctx.parameters ∧
      p.snd.model_config_override = ctx.model_config_override) ∧
    (p.snd.chatlog.current_context = ctx.chatlog.current_context ∧
      p.snd.chatlog.user_description = ctx.chatlog.user_description ∧
      p.snd.chatlog.items.map turnData = ctx.chatlog.items.map turnData) := by
  simp only [similarStage] at h
  by_cases hcond : containsSub (chars "<|similar_sentences|>") buf ∧ 0 < ctx.chatlog.items.length
  · rw [if_pos hcond] at h
    rcases heng : st.embedding_engine with _ | eng
    · simp only [heng] at h
      injection h with h2
      subst h2
      exact ⟨⟨rfl, rfl, rfl, rfl, rfl, rfl⟩, rfl, rfl, rfl⟩
    · simp only [heng] at h
      rcases hsim : getSentenceSimilarityForLast eng
          { ctx.chatlog with items := buildAllVectorEmbeddings eng false ctx.chatlog.items }
          (if ctx.should_continue then 1 else 0)
          (st.model_config.similar_sentence_count.getD defaultNumOfSentenceMatches)
          with e | ms
      · simp only [hsim] at h
        cases h
      · simp only [hsim] at h
        injection h with h2
        subst h2
        exact ⟨⟨rfl, rfl, rfl, rfl, rfl, rfl⟩, rfl, rfl,
          buildAllVectorEmbeddings_turnData eng false ctx.chatlog.items⟩
  · rw [if_neg hcond] at h
    injection h with h2
    subst h2
    exact ⟨⟨rfl, rfl, rfl, rfl, rfl, rfl⟩, rfl, rfl, rfl⟩

theorem getNameAndItems_eq_of_turnData {a b : ChatLogItem}
    (h : turnData a = turnData b) :
    getNameAndItemsAsString a = getNameAndItemsAsString b := by
  simp only [turnData, Prod.mk.injEq] at h
  simp [getNameAndItemsAsString, h.1, h.2]

theorem map_getNameAndItems_of_turnData {xs ys : List ChatLogItem}
    (h : xs.map turnData = ys.map turnData) :
    xs.map getNameAndItemsAsString = ys.map getNameAndItemsAsString := by
  have hx : xs.map getNameAndItemsAsString =
      (xs.map turnData).map (fun p => p.fst ++ chars ": " ++ joinSep '\n' p.snd) := by
    rw [List.map_map]; rfl
  have hy : ys.map getNameAndItemsAsString =
      (ys.map turnData).map (fun p => p.fst ++ chars ": " ++ joinSep '\n' p.snd) := by
    rw [List.map_map]; rfl
  rw [hx, hy, h]

/- ======================= claim theorems =============================== -/

/-- C5: for every sampling profile with mirostat set to 1 or 2, the sampler
configuration emitted for the local backend is exactly the repetition
penalty fragment followed by the mirostat fragment with its eta and tau;
none of the classical samplers (top_k, top_p, min_p, temperature) appear,
and the emitted configuration is unchanged under any values of those
fields. -/
theorem c5_mirostat_disables_classical_knobs (p : ConfiguredParameters) (m : Nat)
    (hm : p.mirostat = some m) (h12 : m = 1 ∨ m = 2) :
    buildSamplerString p = repPenPart p ++ mirostatPart p ∧
    mirostatPart p =
      chars " mirostat" ++ natStr m
        ++ (match p.mirostat_eta with
            | some eta => chars ":eta=" ++ eta
            | none => [])
        ++ (match p.mirostat_tau with
            | some tau => chars ":tau=" ++ tau
            | none => []) ∧
    ∀ tk tp mp tmp,
      buildSamplerString
          { p with top_k := tk, top_p := tp, min_p := mp, temperature := tmp } =
        buildSamplerString p := by
  refine ⟨?_, ?_, ?_⟩
  · simp [buildSamplerString, hm]
  · simp only [mirostatPart, hm]
    rw [if_pos h12]
  · intro tk tp mp tmp
    simp only [buildSamplerString, repPenPart, mirostatPart, hm]

/-- Witness for C5 at a concrete profile with mirostat 2 and all classical
knobs populated. -/
theorem c5_witness :
    buildSamplerString paramsMiroFx = repPenPart paramsMiroFx ++ mirostatPart paramsMiroFx ∧
    buildSamplerString
        { paramsMiroFx with
          top_k := some 999, top_p := some (chars "0.5")
          min_p := some (chars "0.5"), temperature := some (chars "2.0") } =
      buildSamplerString paramsMiroFx :=
  ⟨(c5_mirostat_disables_classical_knobs paramsMiroFx 2 rfl (Or.inr rfl)).1,
   (c5_mirostat_disables_classical_knobs paramsMiroFx 2 rfl (Or.inr rfl)).2.2
     (some 999) (some (chars "0.5")) (some (chars "0.5")) (some (chars "2.0"))⟩

/-- C10: whenever the mirostat field is present with a value that is
neither 1 nor 2 (in particular the documented disabled value 0), the
classical knobs are still omitted from the built sampler configuration,
which consists of the repetition penalty fragment alone. -/
theorem c10_mirostat_zero_still_omits_classical (p : ConfiguredParameters) (m : Nat)
    (hm : p.mirostat = some m) (hnot : m ≠ 1 ∧ m ≠ 2) :
    buildSamplerString p = repPenPart p ∧
    ∀ tk tp mp tmp,
      buildSamplerString
          { p with top_k := tk, top_p := tp, min_p := mp, temperature := tmp } =
        repPenPart p := by
  have hmp : ∀ q : ConfiguredParameters, q.mirostat = some m → mirostatPart q = [] := by
    intro q hq
    simp only [mirostatPart, hq]
    rw [if_neg]
    rintro (h1 | h2)
    · exact hnot.1 h1
    · exact hnot.2 h2
  constructor
  · simp [buildSamplerString, hm, hmp p hm]
  · intro tk tp mp tmp
    simp only [buildSamplerString, repPenPart, hm]
    rw [hmp _ rfl, List.append_nil]

/-- Witness for C10 at a concrete profile with mirostat 0 and all classical
knobs populated. -/
theorem c10_witness :
    buildSamplerString paramsMiroZeroFx = repPenPart paramsMiroZeroFx ∧
    buildSamplerString
        { paramsMiroZeroFx with
          top_k := some 7, top_p := some (chars "0.1")
          min_p := some (chars "0.2"), temperature := some (chars "1.5") } =
      repPenPart paramsMiroZeroFx :=
  ⟨(c10_mirostat_zero_still_omits_classical paramsMiroZeroFx 0 rfl
      ⟨Nat.zero_ne_one, by decide⟩).1,
   (c10_mirostat_zero_still_omits_classical paramsMiroZeroFx 0 rfl
      ⟨Nat.zero_ne_one, by decide⟩).2
     (some 7) (some (chars "0.1")) (some (chars "0.2")) (some (chars "1.5"))⟩

/-- C6 counterexample: with the stop-on-name feature enabled, a speaking
character Alice, a differing conversation owner Bob and no other
participants, the stop-sequence list sent to the remote endpoint is exactly
the user and the speaking character; it does not contain the conversation
owner entry, contradicting the claim. -/
theorem c6_counterexample_owner_missing_from_stop_seqs :
    stRemoteFx.config.stop_on_display_name = true ∧
    eqIgnoreAsciiCase ctxOwnerFx.character.name ctxOwnerFx.chatlog_owner.name = false ∧
    (buildKoboldRequest stRemoteFx ctxOwnerFx (chars "p")).stop_sequence =
      some [chars "USER: ", chars "Alice: "] ∧
    (chars "Bob: ") ∉ [chars "USER: ", chars "Alice: "] := by
  refine ⟨rfl, by decide, by decide, by decide⟩

/-- C6 amended: with the stop-on-name feature enabled, the stop-sequence
list sent in the request body is exactly the user display name, the
speaking character and every entry of other_participants, each as the name
followed by a colon and a space; the conversation owner is not added when
it differs from the speaking character. -/
theorem c6_amended_stop_sequence_exact (st : EngineState) (ctx : TextInferenceContext)
    (prompt : Str) (hstop : st.config.stop_on_display_name = true) :
    (buildKoboldRequest st ctx prompt).stop_sequence =
      some ((st.config.display_name ++ chars ": ") ::
        (ctx.character.name ++ chars ": ") ::
        ctx.other_participants.map (fun other => other.fst.name ++ chars ": ")) := by
  simp only [buildKoboldRequest, hstop, if_true]
  congr 1
  rw [buildStopSeqs]
  rcases hop : ctx.other_participants with _ | ⟨o, os⟩
  · simp
  · simp

/-- Witness for the amended C6 at a concrete context with one other
participant. -/
theorem c6_amended_witness :
    (buildKoboldRequest stRemoteFx ctxMultiFx (chars "p")).stop_sequence =
      some ((stRemoteFx.config.display_name ++ chars ": ") ::
        (ctxMultiFx.character.name ++ chars ": ") ::
        ctxMultiFx.other_participants.map (fun other => other.fst.name ++ chars ": ")) :=
  c6_amended_stop_sequence_exact stRemoteFx ctxMultiFx (chars "p") rfl

/-- C7: the name-trim post-processing step is idempotent: truncating at the
earliest stop-phrase occurrence twice yields the same result as truncating
once, for every engine state, context and raw output string. -/
theorem c7_name_trim_idempotent (st : EngineState) (ctx : TextInferenceContext) (s : Str) :
    splitInferenceAtDisplayNames st ctx (splitInferenceAtDisplayNames st ctx s) =
      splitInferenceAtDisplayNames st ctx s := by
  have hne := stopPatterns_ne_nil st ctx
  rcases hfold : (stopPatterns st ctx).foldl (updateEarliest s) none with _ | e
  · simp only [splitInferenceAtDisplayNames, hfold]
  · have hmin :=
      (foldl_updateEarliest_min (s := s) (stopPatterns st ctx) hne none e hfold).1
    have hnone : ∀ p ∈ stopPatterns st ctx, findSub p (s.take e) = none := by
      intro p hp
      rcases hf : findSub p (s.take e) with _ | j
      · rfl
      · exfalso
        have hpre := findSub_isPre p (s.take e) j hf
        rcases isPre_of_take (hne p hp) hpre with ⟨hjk, hpre2⟩
        rcases findSub_complete p s j hpre2 with ⟨i, hi, hij⟩
        have := hmin p hp i hi
        omega
    have h2 := foldl_updateEarliest_all_none (t := s.take e) (stopPatterns st ctx) hnone
    simp only [splitInferenceAtDisplayNames, hfold, h2]

/-- C8 counterexample: with the similar-sentences tag in the template, no
embedding engine configured and an empty conversation, the assembled prompt
still contains the tag: the placeholder is not replaced by the empty
string, contradicting the claim for the empty-conversation case. -/
theorem c8_counterexample_empty_conversation_keeps_tag :
    stSimilarFx.embedding_engine.isNone = true ∧
    ctxRemoteFx.chatlog.items.length = 0 ∧
    ∃ p, createPromptForChatInput stSimilarFx ctxRemoteFx = Except.ok p ∧
      containsSub (chars "<|similar_sentences|>") p.fst = true := by
  refine ⟨rfl, rfl, _, rfl, by decide⟩

/-- C8 amended: with no embedding engine configured and a non-empty
conversation, prompt assembly substitutes the empty string for the
similar-sentences placeholder and completes: the assembled output is
exactly the remaining pipeline applied to the template with the tag
replaced by the empty string.  With an empty conversation the branch is
skipped and the tag is left in place (see the counterexample). -/
theorem c8_amended_similar_tag_empty_substitution (st : EngineState)
    (ctx : TextInferenceContext) (heng : st.embedding_engine = none)
    (hlen : 0 < ctx.chatlog.items.length) :
    createPromptForChatInput st ctx =
      Except.ok (promptFinalize st ctx
        (replaceAll (chars "<|similar_sentences|>") [] (descStage st ctx))) := by
  by_cases hc : containsSub (chars "<|similar_sentences|>") (descStage st ctx)
  · simp only [createPromptForChatInput, similarStage, heng]
    rw [if_pos ⟨hc, hlen⟩]
  · have hnone : findSub (chars "<|similar_sentences|>") (descStage st ctx) = none := by
      rcases h : findSub (chars "<|similar_sentences|>") (descStage st ctx) with _ | v
      · rfl
      · exact absurd (by simp [containsSub, h]) hc
    simp only [createPromptForChatInput, similarStage, heng]
    rw [if_neg (fun hcon => hc hcon.1),
      replaceAll_of_findSub_none _ _ _ hnone]

/-- Witness for the amended C8 at a concrete engine state with the
similar-sentences template and a one-turn conversation. -/
theorem c8_amended_witness :
    createPromptForChatInput stSimilarFx ctxOneTurnFx =
      Except.ok (promptFinalize stSimilarFx ctxOneTurnFx
        (replaceAll (chars "<|similar_sentences|>") []
          (descStage stSimilarFx ctxOneTurnFx))) :=
  c8_amended_similar_tag_empty_substitution stSimilarFx ctxOneTurnFx rfl (by decide)

/-- C3 counterexample: a non-empty conversation in non-continuation mode
whose single newest turn exceeds the budget produces an empty history
substitution and hence an empty prompt for the bare history template,
contradicting the claim that the newest retained turn is always included
and that the history substitution is never empty when a turn exists. -/
theorem c3_counterexample_single_turn_empty_history :
    createPromptForChatInput stTightFx ctxTightFx = Except.ok ([], ctxTightFx) ∧
    ctxTightFx.chatlog.items.length = 1 ∧
    ctxTightFx.should_continue = false := by
  refine ⟨rfl, rfl, rfl⟩

/-- C3 amended: the chat-history section (trailing whitespace stripped)
never exceeds the character budget promptLimitOf; every turn including the
newest is size-gated, so whenever the newest turn of a non-empty
conversation already renders (with its newline) at or beyond the budget,
the history is empty. -/
theorem c3_amended_history_budget (st : EngineState) (ctx : TextInferenceContext)
    (buf2 : Str) (prev : List ChatLogItem) (lastI : ChatLogItem)
    (hsc : ctx.should_continue = false)
    (hitems : ctx.chatlog.items = prev ++ [lastI]) :
    (trimEndStr (chatHistoryPair st ctx buf2).fst).length ≤ promptLimitOf st buf2.length ∧
    (promptLimitOf st buf2.length ≤ (getNameAndItemsAsString lastI).length + 1 →
      (chatHistoryPair st ctx buf2).fst = []) := by
  constructor
  · rcases historyGo_fst_bound ctx.character.name ctx.should_continue
        (promptLimitOf st buf2.length)
        ((ctx.chatlog.items.reverse).map getNameAndItemsAsString) [] []
        (Or.inl rfl) with h | h
    · rw [chatHistoryPair, h]
      simp [trimEndStr]
    · have hle := trimEndStr_length_le (chatHistoryPair st ctx buf2).fst
      rw [chatHistoryPair] at hle ⊢
      omega
  · intro hover
    rw [chatHistoryPair, hsc, hitems, List.reverse_append]
    simp only [List.reverse_cons, List.reverse_nil, List.nil_append,
      List.singleton_append, List.map_cons]
    rw [historyGo, if_neg (by simp)]
    rw [if_pos (by simp only [List.length_append, List.length_cons, List.length_nil]; omega)]

/-- Witness for the amended C3 at the tight-budget fixture. -/
theorem c3_amended_witness :
    (trimEndStr (chatHistoryPair stTightFx ctxTightFx (chars "<|chat_history|>")).fst).length ≤
        promptLimitOf stTightFx (chars "<|chat_history|>").length ∧
    (chatHistoryPair stTightFx ctxTightFx (chars "<|chat_history|>")).fst = [] :=
  ⟨(c3_amended_history_budget stTightFx ctxTightFx (chars "<|chat_history|>") []
      { entity := chars "Alice", lines := [chars "Hello world!!"], embeddings := [] }
      rfl rfl).1,
   (c3_amended_history_budget stTightFx ctxTightFx (chars "<|chat_history|>") []
      { entity := chars "Alice", lines := [chars "Hello world!!"], embeddings := [] }
      rfl rfl).2 (by decide)⟩

/-- C4: in continuation mode, for every conversation whose newest turn
renders as the text Alice colon space Hello wor with Alice the speaking
character, the assembled prompt ends with the bytes of the continuation
fragment Hello wor, and the newest turn is excluded from the history walk,
which proceeds over the earlier turns with the stripped fragment reserved
as the continuation line. -/
theorem c4_continuation_fragment_final_bytes (st : EngineState)
    (ctx : TextInferenceContext) (prev : List ChatLogItem) (lastI : ChatLogItem)
    (hsc : ctx.should_continue = true)
    (hname : ctx.character.name = chars "Alice")
    (hitems : ctx.chatlog.items = prev ++ [lastI])
    (hlast : getNameAndItemsAsString lastI = chars "Alice: Hello wor") :
    (∀ p, createPromptForChatInput st ctx = Except.ok p →
      ∃ pre, p.fst = pre ++ chars "Hello wor") ∧
    ∀ pl h0,
      historyGo ctx.character.name true pl
          ((ctx.chatlog.items.reverse).map getNameAndItemsAsString) h0 []
        = historyGo ctx.character.name true pl
            ((prev.reverse).map getNameAndItemsAsString) h0 (chars " Hello wor") := by
  have hstep : ∀ (pl : Nat) (ts : List Str) (h0 : Str),
      historyGo (chars "Alice") true pl (chars "Alice: Hello wor" :: ts) h0 []
        = historyGo (chars "Alice") true pl ts h0 (chars " Hello wor") := by
    intro pl ts h0
    rw [historyGo, if_pos ⟨rfl, rfl⟩, if_pos (by decide)]
    have hdrop : (chars "Alice: Hello wor").drop ((chars "Alice").length + 1) =
        chars " Hello wor" := by decide
    rw [hdrop]
  have hlistEq : ∀ (items : List ChatLogItem),
      items.map getNameAndItemsAsString = (prev ++ [lastI]).map getNameAndItemsAsString →
      (items.reverse).map getNameAndItemsAsString =
        chars "Alice: Hello wor" :: (prev.reverse).map getNameAndItemsAsString := by
    intro items hmapEq
    rw [List.map_reverse, hmapEq, List.map_append, List.reverse_append]
    simp [hlast, List.map_reverse]
  constructor
  · intro p hp
    rcases hsimst : similarStage st ctx (descStage st ctx) with e | q
    · simp only [createPromptForChatInput, hsimst] at hp
      cases hp
    · simp only [createPromptForChatInput, hsimst] at hp
      injection hp with hp2
      subst hp2
      obtain ⟨⟨hch, hsc1, -, -, -, -⟩, -, -, hmapTD⟩ :=
        similarStage_snd st ctx (descStage st ctx) q hsimst
      have hmapEq :
          q.snd.chatlog.items.map getNameAndItemsAsString =
            (prev ++ [lastI]).map getNameAndItemsAsString := by
        rw [map_getNameAndItems_of_turnData hmapTD, hitems]
      have hlist := hlistEq _ hmapEq
      have hpair : chatHistoryPair st q.snd (nameStage st q.snd q.fst)
          = historyGo (chars "Alice") true
              (promptLimitOf st (nameStage st q.snd q.fst).length)
              ((prev.reverse).map getNameAndItemsAsString) [] (chars " Hello wor") := by
        rw [chatHistoryPair, hch, hname, hsc1, hsc, hlist, hstep]
      have hsnd : (chatHistoryPair st q.snd (nameStage st q.snd q.fst)).snd =
          chars " Hello wor" := by
        rw [hpair]
        exact historyGo_snd_const _ _ _ _ _ _ (by decide)
      refine ⟨(replaceAll (chars "<|chat_history|>")
          (trimEndStr (chatHistoryPair st q.snd (nameStage st q.snd q.fst)).fst)
          (nameStage st q.snd q.fst)) ++ [' '], ?_⟩
      show (promptFinalize st q.snd q.fst).fst = _
      simp only [promptFinalize, hsnd]
      rw [if_neg (by decide)]
      have hsp : chars " Hello wor" = ' ' :: chars "Hello wor" := by decide
      rw [hsp, List.append_assoc]
      rfl
  · intro pl h0
    rw [hname, hitems]
    rw [hlistEq (prev ++ [lastI]) rfl]
    exact hstep pl ((prev.reverse).map getNameAndItemsAsString) h0

/-- Witness for C4 at a one-turn continuation fixture, applied at the
prompt the assembly actually produces there. -/
theorem c4_witness :
    (∃ pre, ((chars " Hello wor", ctxContinueFx) : Str × TextInferenceContext).fst =
        pre ++ chars "Hello wor") ∧
    ∀ pl h0,
      historyGo ctxContinueFx.character.name true pl
          ((ctxContinueFx.chatlog.items.reverse).map getNameAndItemsAsString) h0 []
        = historyGo ctxContinueFx.character.name true pl
            (([] : List ChatLogItem).reverse.map getNameAndItemsAsString) h0
            (chars " Hello wor") :=
  ⟨(c4_continuation_fragment_final_bytes stRemoteFx ctxContinueFx []
      { entity := chars "Alice", lines := [chars "Hello wor"], embeddings := [] }
      rfl rfl rfl (by decide)).1 (chars " Hello wor", ctxContinueFx) rfl,
   (c4_continuation_fragment_final_bytes stRemoteFx ctxContinueFx []
      { entity := chars "Alice", lines := [chars "Hello wor"], embeddings := [] }
      rfl rfl rfl (by decide)).2⟩

theorem createPrompt_snd_preserves (st : EngineState) (ctx : TextInferenceContext)
    (p : Str × TextInferenceContext)
    (h : createPromptForChatInput st ctx = Except.ok p) :
    p.snd.chatlog.items.map turnData = ctx.chatlog.items.map turnData ∧
    p.snd.chatlog.current_context = ctx.chatlog.current_context ∧
    p.snd.chatlog.user_description = ctx.chatlog.user_description := by
  rcases hsimst : similarStage st ctx (descStage st ctx) with e | q
  · simp only [createPromptForChatInput, hsimst] at h
    cases h
  · simp only [createPromptForChatInput, hsimst] at h
    injection h with h2
    subst h2
    obtain ⟨-, hcc, hud, hmap⟩ := similarStage_snd st ctx (descStage st ctx) q hsimst
    exact ⟨hmap, hcc, hud⟩

theorem textInferLocal_snd (localInfer : Str → Str → Str) (st : EngineState)
    (ctx : TextInferenceContext) (r : Option Str × TextInferenceContext)
    (h : textInferLocal localInfer st ctx = Except.ok r) :
    ∃ p, createPromptForChatInput st ctx = Except.ok p ∧ r.snd = p.snd := by
  rcases hcp : createPromptForChatInput st ctx with e | pc
  · simp only [textInferLocal, hcp] at h
    cases h
  · simp only [textInferLocal, hcp] at h
    injection h with h2
    subst h2
    exact ⟨pc, rfl, rfl⟩

theorem textInferKobold_snd (st : EngineState) (http : KoboldOracle)
    (ctx : TextInferenceContext) (r : Option Str × TextInferenceContext)
    (h : textInferKobold st http ctx = Except.ok r) :
    ∃ p, createPromptForChatInput st ctx = Except.ok p ∧ r.snd = p.snd := by
  rcases hcp : createPromptForChatInput st ctx with e | pc
  · simp only [textInferKobold, hcp] at h
    cases h
  · refine ⟨pc, rfl, ?_⟩
    simp only [textInferKobold, hcp] at h
    rcases hh : http (buildKoboldRequest st pc.snd pc.fst) with e | w
    · simp only [hh] at h
      cases h
    · obtain ⟨status, body⟩ := w
      simp only [hh] at h
      by_cases hst : status = 200
      · rw [if_pos hst] at h
        rcases body with e2 | results
        · cases h
        · rcases results with _ | ⟨r0, rs⟩
          · injection h with h2
            subst h2
            rfl
          · injection h with h2
            subst h2
            rfl
      · rw [if_neg hst] at h
        injection h with h2
        subst h2
        rfl

theorem stepTextInference_ok_newText (oracles : BackendOracles) (st : EngineState)
    (ctx : TextInferenceContext) (p : LlmEngineResponse × EngineState)
    (h : stepTextInference oracles st ctx = Except.ok p) :
    ∃ t c, p.fst = LlmEngineResponse.NewText t c := by
  rcases hhs : hotSwap oracles.loadModel st ctx with e | st2
  · simp only [stepTextInference, hhs] at h
    cases h
  · simp only [stepTextInference, hhs] at h
    by_cases hpath : st2.model_config.path.isSome
    · rw [if_pos hpath] at h
      rcases hl : textInferLocal oracles.localInfer st2 ctx with e | r
      · simp only [hl] at h
        cases h
      · simp only [hl] at h
        injection h with h2
        subst h2
        exact ⟨_, _, rfl⟩
    · rw [if_neg hpath] at h
      rcases hk : textInferKobold st2 oracles.http ctx with e | r
      · simp only [hk] at h
        cases h
      · simp only [hk] at h
        injection h with h2
        subst h2
        exact ⟨_, _, rfl⟩

/-- C9: whenever processing a TextInference request completes with a
response, that response is a NewText whose echoed conversation agrees with
the submitted one on every turn (speaker name and lines, order and count),
on the current scene context and on the user description: prompt assembly
may only have touched the embeddings fields. -/
theorem c9_response_echo_preserves_conversation (oracles : BackendOracles)
    (st : EngineState) (ctx : TextInferenceContext)
    (p : LlmEngineResponse × EngineState)
    (h : stepTextInference oracles st ctx = Except.ok p) :
    ∃ t c, p.fst = LlmEngineResponse.NewText t c ∧
      c.chatlog.items.map turnData = ctx.chatlog.items.map turnData ∧
      c.chatlog.current_context = ctx.chatlog.current_context ∧
      c.chatlog.user_description = ctx.chatlog.user_description := by
  rcases hhs : hotSwap oracles.loadModel st ctx with e | st2
  · simp only [stepTextInference, hhs] at h
    cases h
  · simp only [stepTextInference, hhs] at h
    by_cases hpath : st2.model_config.path.isSome
    · rw [if_pos hpath] at h
      rcases hl : textInferLocal oracles.localInfer st2 ctx with e | r
      · simp only [hl] at h
        cases h
      · simp only [hl] at h
        injection h with h2
        subst h2
        obtain ⟨pc, hpc, hsnd⟩ := textInferLocal_snd oracles.localInfer st2 ctx r hl
        obtain ⟨hmap, hcc, hud⟩ := createPrompt_snd_preserves st2 ctx pc hpc
        refine ⟨r.fst, r.snd, rfl, ?_, ?_, ?_⟩
        · rw [hsnd]
          exact hmap
        · rw [hsnd]
          exact hcc
        · rw [hsnd]
          exact hud
    · rw [if_neg hpath] at h
      rcases hk : textInferKobold st2 oracles.http ctx with e | r
      · simp only [hk] at h
        cases h
      · simp only [hk] at h
        injection h with h2
        subst h2
        obtain ⟨pc, hpc, hsnd⟩ := textInferKobold_snd st2 oracles.http ctx r hk
        obtain ⟨hmap, hcc, hud⟩ := createPrompt_snd_preserves st2 ctx pc hpc
        refine ⟨r.fst, r.snd, rfl, ?_, ?_, ?_⟩
        · rw [hsnd]
          exact hmap
        · rw [hsnd]
          exact hcc
        · rw [hsnd]
          exact hud

/-- Witness for C9 at the local-path fixture with a one-turn log. -/
theorem c9_witness :
    ∃ p, stepTextInference oraclesFx stLocalFx ctxOneTurnFx = Except.ok p ∧
      ∃ t c, p.fst = LlmEngineResponse.NewText t c ∧
        c.chatlog.items.map turnData = ctxOneTurnFx.chatlog.items.map turnData ∧
        c.chatlog.current_context = ctxOneTurnFx.chatlog.current_context ∧
        c.chatlog.user_description = ctxOneTurnFx.chatlog.user_description :=
  ⟨_, rfl, c9_response_echo_preserves_conversation oraclesFx stLocalFx ctxOneTurnFx _ rfl⟩

/-- C1 counterexample: a transport-level failure of the remote call does
not degrade to a None payload; it panics the worker (Except.error models
the panic raised by expect on the send), contradicting the claim that any
backend failure degrades to a NewText response with a None payload. -/
theorem c1_counterexample_transport_failure_panics :
    textInferKobold stRemoteFx (fun _ => Except.error (chars "connection refused"))
        ctxRemoteFx =
      Except.error (chars "KoboldAPI call failed for generating text from a prompt") := rfl

/-- C1 amended: on the remote path, when prompt assembly completes and the
transport and the body parse succeed, the request never panics, and a
non-success HTTP status or an empty result list degrades to a None payload
with the context echoed back; a panic escaping from prompt assembly (the
retrieval-augmentation unwraps of get_sentence_similarity_for_last)
propagates out of the request and kills the worker instead of
degrading. -/
theorem c1_amended_kobold_soft_failures (st : EngineState) (http : KoboldOracle)
    (ctx : TextInferenceContext) (p : Str × TextInferenceContext)
    (status : Nat) (results : List Str)
    (hasm : createPromptForChatInput st ctx = Except.ok p)
    (hhttp : http (buildKoboldRequest st p.snd p.fst) =
        Except.ok (status, Except.ok results)) :
    ((∃ v, textInferKobold st http ctx = Except.ok v) ∧
      ((status ≠ 200 ∨ results = []) →
        textInferKobold st http ctx = Except.ok (none, p.snd))) ∧
    (∀ (st2 : EngineState) (http2 : KoboldOracle) (ctx2 : TextInferenceContext) (e : Str),
      createPromptForChatInput st2 ctx2 = Except.error e →
      textInferKobold st2 http2 ctx2 = Except.error e) := by
  constructor
  · simp only [textInferKobold, hasm, hhttp]
    by_cases hst : status = 200
    · rw [if_pos hst]
      rcases results with _ | ⟨r0, rs⟩
      · exact ⟨⟨(none, p.snd), rfl⟩, fun _ => rfl⟩
      · refine ⟨⟨_, rfl⟩, ?_⟩
        rintro (hbad | hbad)
        · exact absurd hst hbad
        · cases hbad
    · rw [if_neg hst]
      exact ⟨⟨_, rfl⟩, fun _ => rfl⟩
  · intro st2 http2 ctx2 e he
    simp only [textInferKobold, he]

/-- Witness for the amended C1: a 500 status with an empty parsed body
yields a completed request with a None payload, and at a continuation
request on a one-turn log with a configured embedding engine and the
similar-sentences template the retrieval panic propagates out of the
remote path. -/
theorem c1_amended_witness :
    ((∃ v, textInferKobold stRemoteFx
        (fun _ => Except.ok (500, Except.ok ([] : List Str))) ctxRemoteFx =
          Except.ok v) ∧
      textInferKobold stRemoteFx
          (fun _ => Except.ok (500, Except.ok ([] : List Str))) ctxRemoteFx =
        Except.ok (none, (([], ctxRemoteFx) : Str × TextInferenceContext).snd)) ∧
    textInferKobold stEmbedFx
        (fun _ => Except.ok (200, Except.ok [chars "ok"])) ctxContinueFx =
      Except.error
        (chars "Attempting to get last chatlogitem in the log to use for searching embeddings") := by
  refine ⟨⟨?_, ?_⟩, ?_⟩
  · exact (c1_amended_kobold_soft_failures stRemoteFx
      (fun _ => Except.ok (500, Except.ok ([] : List Str))) ctxRemoteFx
      ([], ctxRemoteFx) 500 [] rfl rfl).1.1
  · exact (c1_amended_kobold_soft_failures stRemoteFx
      (fun _ => Except.ok (500, Except.ok ([] : List Str))) ctxRemoteFx
      ([], ctxRemoteFx) 500 [] rfl rfl).1.2 (Or.inl (by decide))
  · exact (c1_amended_kobold_soft_failures stRemoteFx
      (fun _ => Except.ok (500, Except.ok ([] : List Str))) ctxRemoteFx
      ([], ctxRemoteFx) 500 [] rfl rfl).2 stEmbedFx
      (fun _ => Except.ok (200, Except.ok [chars "ok"])) ctxContinueFx
      (chars "Attempting to get last chatlogitem in the log to use for searching embeddings")
      rfl

theorem processLoop_trace (oracles : BackendOracles) :
    ∀ (ctxs : List TextInferenceContext) (st : EngineState),
      noPanics oracles st ctxs = true →
      (processLoop oracles st (ctxs.map LlmEngineRequest.TextInference)).length =
          ctxs.length ∧
      (∀ i c, ctxs[i]? = some c →
        ∃ t c2 st2,
          stepTextInference oracles (stateAfter oracles st (ctxs.take i)) c =
            Except.ok (LlmEngineResponse.NewText t c2, st2) ∧
          (processLoop oracles st (ctxs.map LlmEngineRequest.TextInference))[i]? =
            some (LlmEngineResponse.NewText t c2)) := by
  intro ctxs
  induction ctxs with
  | nil =>
    intro st _
    refine ⟨rfl, ?_⟩
    intro i c hc
    simp at hc
  | cons c0 cs ih =>
    intro st h
    rcases hstep : stepTextInference oracles st c0 with e | pr
    · simp only [noPanics, hstep] at h
      cases h
    · obtain ⟨resp, st2⟩ := pr
      simp only [noPanics, hstep] at h
      obtain ⟨hlen, hidx⟩ := ih st2 h
      obtain ⟨t, c2, hshape⟩ :=
        stepTextInference_ok_newText oracles st c0 (resp, st2) hstep
      simp only at hshape
      subst hshape
      constructor
      · simp only [List.map_cons, processLoop, hstep, List.length_cons, hlen]
      · intro i c hc
        cases i with
        | zero =>
          simp only [List.getElem?_cons_zero] at hc
          injection hc with hcc
          subst hcc
          refine ⟨t, c2, st2, ?_, ?_⟩
          · simpa [stateAfter] using hstep
          · simp only [List.map_cons, processLoop, hstep, List.getElem?_cons_zero]
        | succ i0 =>
          simp only [List.getElem?_cons_succ] at hc
          obtain ⟨t3, c3, st3, hstep3, hget3⟩ := hidx i0 c hc
          refine ⟨t3, c3, st3, ?_, ?_⟩
          · have hsa : stateAfter oracles st ((c0 :: cs).take (i0 + 1)) =
                stateAfter oracles st2 (cs.take i0) := by
              simp only [List.take_succ_cons, stateAfter, stateAfterStep, hstep]
            rw [hsa]
            exact hstep3
          · simp only [List.map_cons, processLoop, hstep, List.getElem?_cons_succ]
            exact hget3

/-- C2 amended: from a worker whose model load succeeded, the first
response is always ModelLoaded; provided every request in the sequence
processes without a panic (noPanics), a sequence of N TextInference
requests yields exactly N further responses, the response at position i+1
being the NewText produced by processing the i-th request against the
state threaded through the earlier requests, in request order.  A request
whose processing panics kills the worker and ends the response stream (see
the counterexample). -/
theorem c2_amended_one_newtext_per_request (oracles : BackendOracles)
    (st : EngineState) (ctxs : List TextInferenceContext)
    (h : noPanics oracles st ctxs = true) :
    (runWorker oracles st (ctxs.map LlmEngineRequest.TextInference)).head? =
        some LlmEngineResponse.ModelLoaded ∧
    (runWorker oracles st (ctxs.map LlmEngineRequest.TextInference)).length =
        ctxs.length + 1 ∧
    ∀ i c, ctxs[i]? = some c →
      ∃ t c2 st2,
        stepTextInference oracles (stateAfter oracles st (ctxs.take i)) c =
          Except.ok (LlmEngineResponse.NewText t c2, st2) ∧
        (runWorker oracles st (ctxs.map LlmEngineRequest.TextInference))[i + 1]? =
          some (LlmEngineResponse.NewText t c2) := by
  obtain ⟨hlen, hidx⟩ := processLoop_trace oracles ctxs st h
  refine ⟨rfl, ?_, ?_⟩
  · simp only [runWorker, List.length_cons, hlen]
  · intro i c hc
    obtain ⟨t, c2, st2, h1, h2⟩ := hidx i c hc
    refine ⟨t, c2, st2, h1, ?_⟩
    simpa only [runWorker, List.getElem?_cons_succ] using h2

/-- C2 counterexample: a single TextInference request naming an unknown
model configuration panics the worker in the hot-swap lookup; the response
stream is just ModelLoaded, so one request yields zero NewText responses,
contradicting the claim that every sequence of N requests yields exactly
one NewText per request. -/
theorem c2_counterexample_bad_override_kills_worker :
    runWorker oraclesFx stRemoteFx
        [LlmEngineRequest.TextInference ctxBadOverrideFx] =
      [LlmEngineResponse.ModelLoaded] := by
  decide

/-- Witness for the amended C2: one well-formed request on the local path
processes without panic and the conclusion holds at that input. -/
theorem c2_amended_witness :
    noPanics oraclesFx stLocalFx [ctxOneTurnFx] = true ∧
    ((runWorker oraclesFx stLocalFx
          ([ctxOneTurnFx].map LlmEngineRequest.TextInference)).head? =
        some LlmEngineResponse.ModelLoaded ∧
      (runWorker oraclesFx stLocalFx
          ([ctxOneTurnFx].map LlmEngineRequest.TextInference)).length =
        [ctxOneTurnFx].length + 1 ∧
      ∀ i c, [ctxOneTurnFx][i]? = some c →
        ∃ t c2 st2,
          stepTextInference oraclesFx
              (stateAfter oraclesFx stLocalFx ([ctxOneTurnFx].take i)) c =
            Except.ok (LlmEngineResponse.NewText t c2, st2) ∧
          (runWorker oraclesFx stLocalFx
              ([ctxOneTurnFx].map LlmEngineRequest.TextInference))[i + 1]? =
            some (LlmEngineResponse.NewText t c2)) :=
  ⟨by decide,
   c2_amended_one_newtext_per_request oraclesFx stLocalFx [ctxOneTurnFx] (by decide)⟩
